import Mathlib

/-!
Verification of the `prometheus/cache` package (`cache.go`): a cached
transactional gatherer holding two indexes over stored metric records,
`metrics : map[uint64]*dto.Metric` (by content hash) and
`metricFamilyByName : map[string]*dto.MetricFamily` (by family name).

Modelling conventions:
- Go pointers (`*dto.Metric`, `*dto.MetricFamily`) are modelled by addresses
  (`Addr := Nat`) into explicit heaps carried in the state, so that pointer
  identity (used by the deletion scan `mf.Metric[i] == m`) and in-place
  mutation of shared records are represented faithfully.
- Go maps are modelled by association lists with first-binding lookup,
  in-place replacement and deletion (`lookupA`, `setA`, `eraseA`).
- `float64` metric values are never inspected by this code (only stored and
  retrieved), so they are modelled by a type parameter `V` with decidable
  equality.
- The external xxhash library is abstracted by the identity on its input
  stream: `Key.hash` returns the exact sequence of fields the source streams
  into the hasher (name, separator, then each label name/value pair with
  separators, in supplied order), so two keys hash equal in the model exactly
  when the source feeds equal streams to xxhash.  The byte-level UTF-8
  encoding is abstracted by the code-point sequence.
- Concurrency (the `sync.RWMutex`) is outside the model; `Update` is modelled
  as a pure state transformer, which matches its behaviour under the
  exclusive lock.
-/

namespace PromCache

set_option autoImplicit false

universe u

abbrev Addr := Nat

/-! Association-list maps modelling Go maps. -/

def lookupA {κ : Type u} {α : Type} [DecidableEq κ] : List (κ × α) → κ → Option α
  | [], _ => none
  | (k, v) :: rest, q => if q = k then some v else lookupA rest q

def setA {κ : Type u} {α : Type} [DecidableEq κ] : List (κ × α) → κ → α → List (κ × α)
  | [], q, v => [(q, v)]
  | (k, w) :: rest, q, v => if q = k then (k, v) :: rest else (k, w) :: setA rest q v

def modifyA {κ : Type u} {α : Type} [DecidableEq κ] : List (κ × α) → κ → (α → α) → List (κ × α)
  | [], _, _ => []
  | (k, w) :: rest, q, f => if q = k then (k, f w) :: rest else (k, w) :: modifyA rest q f

def eraseA {κ : Type u} {α : Type} [DecidableEq κ] : List (κ × α) → κ → List (κ × α)
  | [], _ => []
  | (k, w) :: rest, q => if q = k then rest else (k, w) :: eraseA rest q

/-! The `Key` type (cache.go lines 67-100). -/

structure Key where
  FQName : String
  LabelNames : List String
  LabelValues : List String
deriving DecidableEq

/- `isValid` returns `some errorMessage` on failure, `none` on success,
mirroring `func (k Key) isValid() error` (lines 76-85). -/
def Key.isValid (k : Key) : Option String :=
  if k.FQName = "" then some "FQName cannot be empty"
  else if k.LabelNames.length ≠ k.LabelValues.length then
    some "new metric: label name has different length than values"
  else none

/- `model.SeparatorByte` (0xFF), written between streamed fields. -/
def separatorByte : Nat := 255

/- The code points of a string, standing for the bytes `WriteString` streams. -/
def strStream (s : String) : List Nat := s.data.map Char.toNat

/- `func (k Key) hash() uint64` (lines 88-100): the hash is the xxhash of the
stream `FQName ‖ sep ‖ ln₀ ‖ sep ‖ lv₀ ‖ sep ‖ …` over the label pairs in the
order supplied.  We model the hash by that stream itself (xxhash is an external
library; it is a fixed pure function of this stream).  The Go loop indexes
`LabelValues` by the indices of `LabelNames`; all call sites run it only after
`isValid` guarantees the lengths are equal, where `List.zip` agrees with it. -/
def Key.hash (k : Key) : List Nat :=
  strStream k.FQName ++ [separatorByte] ++
    (List.zip k.LabelNames k.LabelValues).foldr
      (fun p acc => strStream p.1 ++ [separatorByte] ++ strStream p.2 ++ [separatorByte] ++ acc) []

/-! The `Insert` type (lines 102-112) and value-kind constants. -/

/- `prometheus.ValueType` is an integer enumeration: `CounterValue = 1`,
`GaugeValue = 2`, `UntypedValue = 3` (iota-based, starting after `_`). -/
def CounterValue : Int := 1
def GaugeValue : Int := 2
def UntypedValue : Int := 3

def isSupportedValueType (t : Int) : Bool :=
  t = CounterValue || t = GaugeValue || t = UntypedValue

/- A `time.Time` as far as this code observes it: `Unix()` seconds and
`Nanosecond()` (in `[0, 1e9)`). -/
structure GoTime where
  sec : Int
  nsec : Nat
deriving DecidableEq

/- Line 203: `Timestamp.Unix()*1000 + int64(Timestamp.Nanosecond()/1000000)`. -/
def GoTime.unixMilli (t : GoTime) : Int :=
  t.sec * 1000 + Int.ofNat (t.nsec / 1000000)

structure Insert (V : Type) extends Key where
  Help : String
  ValueType : Int
  Value : V
  Timestamp : Option GoTime
deriving DecidableEq

/-! Stored records (`dto.Metric`, `dto.MetricFamily`) as this code observes
them. -/

structure LabelPair where
  Name : String
  Value : String
deriving DecidableEq

structure MetricRec (V : Type) where
  Label : List LabelPair
  Counter : Option V
  Gauge : Option V
  Untyped : Option V
  TimestampMs : Option Int
deriving DecidableEq

/- `Typ` models the Go field `Type`, a Lean keyword; it stores the result of
`ValueType.ToDTO()`, modelled by the `ValueType` integer itself (the
conversion is injective on supported kinds and the stored value is never read
back by this code). -/
structure FamilyRec where
  Name : String
  Help : String
  Typ : Int
  Metric : List Addr
deriving DecidableEq

/- Lexicographic order on code-point lists, standing for Go's byte-wise
string comparison. -/
def natListLeB : List Nat → List Nat → Bool
  | [], _ => true
  | _ :: _, [] => false
  | a :: as, b :: bs => if a < b then true else if b < a then false else natListLeB as bs

def strLeB (s t : String) : Bool := natListLeB (strStream s) (strStream t)

/- Modelled from the spec: `internal.LabelPairSorter` (package
`prometheus/internal`, not under src/) orders a metric's stored label pairs
by label name; insertion sort by `Name`. -/
def insertPairSorted (p : LabelPair) : List LabelPair → List LabelPair
  | [] => [p]
  | q :: rest => if strLeB p.Name q.Name then p :: q :: rest else q :: insertPairSorted p rest

def sortLabelPairs (l : List LabelPair) : List LabelPair :=
  l.foldr insertPairSorted []

/- Lines 159-166: the sorted label-pair list built for a newly created
metric record. -/
def mkSortedLabels (names vals : List String) : List LabelPair :=
  sortLabelPairs ((List.zip names vals).map (fun p => { Name := p.1, Value := p.2 }))

/-! The cache state (`CachedTGatherer`, lines 45-56). -/

structure CacheState (V : Type) where
  mheap : List (Addr × MetricRec V)
  fheap : List (Addr × FamilyRec)
  metrics : List (List Nat × Addr)
  metricFamilyByName : List (String × Addr)
  nextAddr : Addr
deriving DecidableEq

def NewCachedTGatherer (V : Type) : CacheState V :=
  { mheap := [], fheap := [], metrics := [], metricFamilyByName := [], nextAddr := 0 }

/-! The `Update` algorithm (lines 122-261). -/

/- Working state threaded through the insert and deletion loops: the shared
heaps, the working maps `currMetrics`/`currMetricFamilies` (lines 126-131),
the allocator, and the accumulated soft errors (`errs`, line 133). -/
structure UpdCtx (V : Type) where
  mheap : List (Addr × MetricRec V)
  fheap : List (Addr × FamilyRec)
  currMetrics : List (List Nat × Addr)
  currMetricFamilies : List (String × Addr)
  nextAddr : Addr
  errs : List String
deriving DecidableEq

/- Lines 126-131: under reset the working maps start empty; otherwise they are
the live maps themselves (the same Go map objects). -/
def initCtx {V : Type} (c : CacheState V) (reset : Bool) : UpdCtx V :=
  { mheap := c.mheap, fheap := c.fheap,
    currMetrics := if reset then [] else c.metrics,
    currMetricFamilies := if reset then [] else c.metricFamilyByName,
    nextAddr := c.nextAddr, errs := [] }

/- Lines 141-153: look the family up in the receiver's map
`c.metricFamilyByName` — which is the pre-call map under reset, and the
working map itself otherwise — creating a fresh record or truncating the
reused record's `Metric` slice under reset; then set `Type` and `Help` and
store the record in the working family map.  Returns the updated context and
the family's address. -/
def famPhase {V : Type} (reset : Bool) (origFamilies : List (String × Addr))
    (ctx : UpdCtx V) (ins : Insert V) : UpdCtx V × Addr :=
  let looked : UpdCtx V × Addr :=
    match lookupA (if reset then origFamilies else ctx.currMetricFamilies) ins.FQName with
    | none =>
      let a := ctx.nextAddr
      ({ ctx with
          fheap := ctx.fheap ++ [(a, { Name := ins.FQName, Help := "", Typ := 0, Metric := [] })],
          nextAddr := a + 1 }, a)
    | some a =>
      (if reset then
        { ctx with fheap := modifyA ctx.fheap a (fun mf => { mf with Metric := [] }) }
       else ctx, a)
  ({ looked.1 with
      fheap := modifyA looked.1.fheap looked.2
        (fun mf => { mf with Typ := ins.ValueType, Help := ins.Help }),
      currMetricFamilies := setA looked.1.currMetricFamilies ins.FQName looked.2 },
   looked.2)

/- Lines 155-167: look the metric up by hash in the receiver's map
`c.metrics` — the pre-call map under reset, the working map otherwise —
allocating a fresh record with sorted label pairs when absent.  Returns the
context, the metric's address, and the `ok` flag of the map lookup. -/
def metricPhase {V : Type} (reset : Bool) (origMetrics : List (List Nat × Addr))
    (ctx : UpdCtx V) (ins : Insert V) : UpdCtx V × Addr × Bool :=
  match lookupA (if reset then origMetrics else ctx.currMetrics) ins.toKey.hash with
  | none =>
    let a := ctx.nextAddr
    ({ ctx with
        mheap := ctx.mheap ++ [(a,
          { Label := mkSortedLabels ins.LabelNames ins.LabelValues,
            Counter := none, Gauge := none, Untyped := none, TimestampMs := none })],
        nextAddr := a + 1 }, a, false)
  | some a => (ctx, a, true)

/- Lines 169-199: the switch on `ValueType`, routing the value into exactly
one union arm and clearing the other two.  Total function; `Update` guards it
with `isSupportedValueType` and the default branch is the hard error. -/
def setValueArm {V : Type} (t : Int) (v : V) (m : MetricRec V) : MetricRec V :=
  if t = CounterValue then { m with Counter := some v, Gauge := none, Untyped := none }
  else if t = GaugeValue then { m with Counter := none, Gauge := some v, Untyped := none }
  else { m with Counter := none, Gauge := none, Untyped := some v }

/- Lines 169-215: set the value (hard error on an unsupported kind, line 198,
with nothing past the switch applied), set or clear the timestamp, register
the metric in the working hash map, and append it to the family's members
unless this is a non-reset update of an already present hash entry. -/
def finishInsert {V : Type} (reset : Bool) (mfAddr mAddr : Addr) (ok : Bool)
    (ctx : UpdCtx V) (ins : Insert V) : UpdCtx V × Option String :=
  if isSupportedValueType ins.ValueType then
    let ctx1 := { ctx with
      mheap := modifyA ctx.mheap mAddr (fun m =>
        { setValueArm ins.ValueType ins.Value m with
            TimestampMs := ins.Timestamp.map GoTime.unixMilli }) }
    let ctx2 := { ctx1 with currMetrics := setA ctx1.currMetrics ins.toKey.hash mAddr }
    if !reset && ok then (ctx2, none)
    else ({ ctx2 with
            fheap := modifyA ctx2.fheap mfAddr
              (fun mf => { mf with Metric := mf.Metric ++ [mAddr] }) }, none)
  else (ctx, some ("unsupported value type " ++ toString ins.ValueType))

def insertStepValid {V : Type} (reset : Bool) (origMetrics : List (List Nat × Addr))
    (origFamilies : List (String × Addr)) (ctx : UpdCtx V) (ins : Insert V) :
    UpdCtx V × Option String :=
  let fam := famPhase reset origFamilies ctx ins
  let met := metricPhase reset origMetrics fam.1 ins
  finishInsert reset fam.2 met.2.1 met.2.2 met.1 ins

/- One iteration of the insert loop (lines 134-215).  `some e` in the second
component is the batch-aborting hard error of line 198. -/
def insertStep {V : Type} (reset : Bool) (origMetrics : List (List Nat × Addr))
    (origFamilies : List (String × Addr)) (ctx : UpdCtx V) (ins : Insert V) :
    UpdCtx V × Option String :=
  match ins.toKey.isValid with
  | some e => ({ ctx with errs := ctx.errs ++ [e] }, none)
  | none => insertStepValid reset origMetrics origFamilies ctx ins

def processInserts {V : Type} (reset : Bool) (origMetrics : List (List Nat × Addr))
    (origFamilies : List (String × Addr)) :
    UpdCtx V → List (Insert V) → UpdCtx V × Option String
  | ctx, [] => (ctx, none)
  | ctx, ins :: rest =>
    match insertStep reset origMetrics origFamilies ctx ins with
    | (ctx2, none) => processInserts reset origMetrics origFamilies ctx2 rest
    | (ctx2, some e) => (ctx2, some e)

/- Line 233's message; `%s` of a Go string slice is abstracted by `toString`
of the list. -/
def delNoFamilyMsg (del : Key) : String :=
  "could not remove metric " ++ del.FQName ++ "(" ++ toString del.LabelValues ++
    ") from metric family, metric family does not exists"

/- Line 246's message. -/
def delNoMemberMsg (del : Key) : String :=
  "could not remove metric " ++ del.FQName ++ "(" ++ toString del.LabelValues ++
    ") from metric family, metric family does not have such metric"

/- One iteration of the deletion loop (lines 217-256).  The member scan of
lines 237-243 compares pointers, modelled by address equality.  A family
address missing from the heap is unrepresentable in Go (the pointer always
dereferences); it is mapped to the member-not-found branch. -/
def delStep {V : Type} (ctx : UpdCtx V) (del : Key) : UpdCtx V :=
  match del.isValid with
  | some e => { ctx with errs := ctx.errs ++ [e] }
  | none =>
    match lookupA ctx.currMetrics del.hash with
    | none => ctx
    | some mAddr =>
      let ctx1 := { ctx with currMetrics := eraseA ctx.currMetrics del.hash }
      match lookupA ctx1.currMetricFamilies del.FQName with
      | none => { ctx1 with errs := ctx1.errs ++ [delNoFamilyMsg del] }
      | some mfAddr =>
        match lookupA ctx1.fheap mfAddr with
        | none => { ctx1 with errs := ctx1.errs ++ [delNoMemberMsg del] }
        | some mf =>
          match mf.Metric.findIdx? (fun a => a == mAddr) with
          | none => { ctx1 with errs := ctx1.errs ++ [delNoMemberMsg del] }
          | some i =>
            if mf.Metric.length = 1 then
              { ctx1 with currMetricFamilies := eraseA ctx1.currMetricFamilies del.FQName }
            else
              { ctx1 with
                  fheap := modifyA ctx1.fheap mfAddr
                    (fun f => { f with Metric := f.Metric.eraseIdx i }) }

def processDeletions {V : Type} (ctx : UpdCtx V) (deletions : List Key) : UpdCtx V :=
  deletions.foldl delStep ctx

/- `func (c *CachedTGatherer) Update(reset bool, inserts []Insert, deletions
[]Key) error` (lines 122-261).  The returned error is modelled as the list of
messages: the hard error of line 198 aborts before the final map swap of
lines 258-259 and returns that single error (so under reset the live maps
keep their pre-call entries, while without reset the working maps are the
live map objects and the partial mutations stay visible); otherwise the
deletions run and the aggregated soft errors are returned (`[]` for a nil
`MultiError`). -/
def Update {V : Type} [DecidableEq V] (c : CacheState V) (reset : Bool)
    (inserts : List (Insert V)) (deletions : List Key) : CacheState V × List String :=
  match processInserts reset c.metrics c.metricFamilyByName (initCtx c reset) inserts with
  | (ctx, some e) =>
    ({ mheap := ctx.mheap, fheap := ctx.fheap,
       metrics := if reset then c.metrics else ctx.currMetrics,
       metricFamilyByName := if reset then c.metricFamilyByName else ctx.currMetricFamilies,
       nextAddr := ctx.nextAddr }, [e])
  | (ctx, none) =>
    let ctx2 := processDeletions ctx deletions
    ({ mheap := ctx2.mheap, fheap := ctx2.fheap,
       metrics := ctx2.currMetrics,
       metricFamilyByName := ctx2.currMetricFamilies,
       nextAddr := ctx2.nextAddr }, ctx2.errs)

/- Modelled from the spec: `internal.NormalizeMetricFamilies` (package
`prometheus/internal`, not under src/) presents the families of the by-name
index in deterministic lexicographic order by family name. -/
def insertFamilySorted (mf : FamilyRec) : List FamilyRec → List FamilyRec
  | [] => [mf]
  | g :: rest => if strLeB mf.Name g.Name then mf :: g :: rest else g :: insertFamilySorted mf rest

def NormalizeMetricFamilies {V : Type} (c : CacheState V) : List FamilyRec :=
  (c.metricFamilyByName.filterMap (fun p => lookupA c.fheap p.2)).foldr insertFamilySorted []

/- `func (c *CachedTGatherer) Gather()` (lines 59-65), without the lock. -/
def Gather {V : Type} (c : CacheState V) : List FamilyRec :=
  NormalizeMetricFamilies c

/-! Observations over the state used by the invariant claims. -/

/- All metric addresses referenced from the members lists of families
reachable from the by-name index. -/
def familyMembers {V : Type} (s : CacheState V) : List Addr :=
  (s.metricFamilyByName.map (fun p =>
    match lookupA s.fheap p.2 with
    | some mf => mf.Metric
    | none => [])).flatten

/- Mutual consistency of the two indexes: every metric stored in the by-hash
map is referenced exactly once from some family's members, and every member
reference resolves to a by-hash entry. -/
def mutuallyConsistentB {V : Type} (s : CacheState V) : Bool :=
  s.metrics.all (fun p => (familyMembers s).count p.2 == 1) &&
  (familyMembers s).all (fun a => s.metrics.any (fun p => p.2 == a))

/- Every family entry present in the by-name index has a non-empty members
list. -/
def noEmptyFamilyB {V : Type} (s : CacheState V) : Bool :=
  s.metricFamilyByName.all (fun p =>
    match lookupA s.fheap p.2 with
    | some mf => !mf.Metric.isEmpty
    | none => false)

/-! Map lemmas. -/

theorem lookupA_setA_self {κ : Type u} {α : Type} [DecidableEq κ]
    (m : List (κ × α)) (k : κ) (v : α) (h : lookupA m k = some v) : setA m k v = m := by
  induction m with
  | nil => simp [lookupA] at h
  | cons p rest ih =>
    obtain ⟨a, b⟩ := p
    by_cases hk : k = a
    · subst hk
      simp [lookupA] at h
      simp [setA, h]
    · simp [lookupA, hk] at h
      simp [setA, hk, ih h]

theorem lookupA_modifyA {κ : Type u} {α : Type} [DecidableEq κ]
    (m : List (κ × α)) (k q : κ) (f : α → α) :
    lookupA (modifyA m k f) q = if q = k then (lookupA m k).map f else lookupA m q := by
  induction m with
  | nil => simp [lookupA, modifyA]
  | cons p rest ih =>
    obtain ⟨a, b⟩ := p
    by_cases hk : k = a
    · subst hk
      by_cases hq : q = k <;> simp [lookupA, modifyA, hq]
    · have h1 : modifyA ((a, b) :: rest) k f = (a, b) :: modifyA rest k f := by
        simp [modifyA, hk]
      rw [h1]
      by_cases hq : q = a
      · have hqk : ¬q = k := fun h2 => hk (h2.symm.trans hq)
        have hak : ¬a = k := fun h2 => hk h2.symm
        simp [lookupA, hq, hqk, hk, hak]
      · simp [lookupA, hq, hk, ih]

/-! Behaviour of single iterations of the insert loop. -/

theorem insertStep_invalid {V : Type} (reset : Bool) (oM : List (List Nat × Addr))
    (oF : List (String × Addr)) (ctx : UpdCtx V) (ins : Insert V) (e : String)
    (h : ins.toKey.isValid = some e) :
    insertStep reset oM oF ctx ins = ({ ctx with errs := ctx.errs ++ [e] }, none) := by
  simp [insertStep, h]

theorem insertStep_snd_supported {V : Type} (reset : Bool) (oM : List (List Nat × Addr))
    (oF : List (String × Addr)) (ctx : UpdCtx V) (ins : Insert V)
    (h1 : ins.toKey.isValid = none) (h2 : isSupportedValueType ins.ValueType = true) :
    (insertStep reset oM oF ctx ins).2 = none := by
  simp only [insertStep, h1, insertStepValid, finishInsert, h2, if_true]
  split <;> rfl

theorem insertStep_unsupported {V : Type} (reset : Bool) (oM : List (List Nat × Addr))
    (oF : List (String × Addr)) (ctx : UpdCtx V) (ins : Insert V)
    (h1 : ins.toKey.isValid = none) (h2 : isSupportedValueType ins.ValueType = false) :
    insertStep reset oM oF ctx ins =
      ((metricPhase reset oM (famPhase reset oF ctx ins).1 ins).1,
        some ("unsupported value type " ++ toString ins.ValueType)) := by
  simp [insertStep, insertStepValid, finishInsert, h1, h2]

/- Processing a batch whose first hard failure is `ins` (everything before it
is either soft-skipped or applied) behaves exactly as if the batch ended at
`ins`, and reports the single hard error. -/
theorem processInserts_firstHard {V : Type} (reset : Bool) (oM : List (List Nat × Addr))
    (oF : List (String × Addr)) (pre : List (Insert V)) (ins : Insert V)
    (post : List (Insert V))
    (hpre : ∀ j ∈ pre, j.toKey.isValid = none → isSupportedValueType j.ValueType = true)
    (h1 : ins.toKey.isValid = none) (h2 : isSupportedValueType ins.ValueType = false)
    (ctx : UpdCtx V) :
    processInserts reset oM oF ctx (pre ++ ins :: post) =
      processInserts reset oM oF ctx (pre ++ [ins]) ∧
    (processInserts reset oM oF ctx (pre ++ [ins])).2 =
      some ("unsupported value type " ++ toString ins.ValueType) := by
  induction pre generalizing ctx with
  | nil =>
    simp only [List.nil_append, processInserts]
    rw [insertStep_unsupported reset oM oF ctx ins h1 h2]
    exact ⟨rfl, rfl⟩
  | cons j rest ih =>
    have hj := hpre j (List.mem_cons_self _ _)
    have hrest : ∀ x ∈ rest, x.toKey.isValid = none → isSupportedValueType x.ValueType = true :=
      fun x hx => hpre x (List.mem_cons_of_mem _ hx)
    simp only [List.cons_append, processInserts]
    cases hv : j.toKey.isValid with
    | some e =>
      rw [insertStep_invalid reset oM oF ctx j e hv]
      exact ih hrest _
    | none =>
      rcases hstep : insertStep reset oM oF ctx j with ⟨ctx2, o⟩
      have ho : o = none := by
        have h3 := insertStep_snd_supported reset oM oF ctx j hv (hj hv)
        rw [hstep] at h3
        exact h3
      subst ho
      exact ih hrest ctx2

/- The value stored in a metric record: the populated union arm. -/
def storedValue {V : Type} (m : MetricRec V) : Option V :=
  match m.Counter with
  | some v => some v
  | none =>
    match m.Gauge with
    | some v => some v
    | none => m.Untyped

theorem setValueArm_Label {V : Type} (t : Int) (v : V) (m : MetricRec V) :
    (setValueArm t v m).Label = m.Label := by
  unfold setValueArm
  split_ifs <;> rfl

theorem storedValue_setValueArm {V : Type} (t : Int) (v : V) (m : MetricRec V) :
    storedValue (setValueArm t v m) = some v := by
  unfold setValueArm storedValue
  split_ifs <;> rfl

/-! Concrete inputs used by the counterexamples and witnesses. -/

/- A gauge insert into family `f` with one label `l` whose value is `lv`. -/
def insG (lv : String) (v : Int) : Insert Int :=
  { FQName := "f", LabelNames := ["l"], LabelValues := [lv],
    Help := "h", ValueType := GaugeValue, Value := v, Timestamp := none }

/- A structurally valid insert whose `ValueType` (4) is unsupported. -/
def badIns : Insert Int :=
  { FQName := "g", LabelNames := [], LabelValues := [], Help := "h",
    ValueType := 4, Value := 7, Timestamp := none }

/- An insert whose key fails validation (empty name). -/
def emptyNameIns : Insert Int :=
  { FQName := "", LabelNames := [], LabelValues := [], Help := "h",
    ValueType := GaugeValue, Value := 1, Timestamp := none }

/- A key whose label sequences have different lengths. -/
def mismatchedKey : Key :=
  { FQName := "g", LabelNames := ["a"], LabelValues := [] }

/- The cache after one reset `Update` on the fresh cache inserting the same
family `f` twice with different label sets. -/
def dupResetState : CacheState Int :=
  (Update (NewCachedTGatherer Int) true [insG "a" 1, insG "b" 2] []).1

/- The cache after inserting a single gauge metric into the fresh cache. -/
def oneMetricCache : CacheState Int :=
  (Update (NewCachedTGatherer Int) false [insG "a" 1] []).1

/- `oneMetricCache` refilled by one reset batch with two inserts into the
same (reused) family. -/
def resetRefillState : CacheState Int :=
  (Update oneMetricCache true [insG "a" 3, insG "b" 4] []).1

/- `dupResetState` after deleting the one metric its family still references. -/
def delDanglingState : CacheState Int :=
  (Update dupResetState false [] [(insG "b" 2).toKey]).1

/- `delDanglingState` after a non-reset re-insert of the key whose hash the
by-hash index still holds. -/
def emptyFamState : CacheState Int :=
  (Update delDanglingState false [insG "a" 9] []).1

/-! Claim theorems. -/

/-- Claim C1 (code_bug evaluation): a single error-free reset `Update` on the
fresh cache, inserting family `f` twice with different label sets, leaves the
two indexes mutually inconsistent — the by-hash map holds two metrics while
the by-name map's only family references just the second one, so the first
metric is referenced by no family.  The call returns a nil error. -/
theorem update_reset_breaks_index_consistency :
    (Update (NewCachedTGatherer Int) true [insG "a" 1, insG "b" 2] []).2 = [] ∧
    mutuallyConsistentB dupResetState = false ∧
    dupResetState.metrics.length = 2 ∧
    familyMembers dupResetState = [3] := by decide

/-- Claim C2 (code_bug evaluation): a reset `Update` with two valid inserts
into the same family (different label sets) on a cache already holding that
family leaves the family with ONE member, not two: the second insert re-reads
the stale pre-call family map and truncates the reused record again, erasing
the first insert's append.  Both metrics are still registered in the by-hash
map and the call returns a nil error. -/
theorem update_reset_same_family_loses_member :
    (Update oneMetricCache true [insG "a" 3, insG "b" 4] []).2 = [] ∧
    ((lookupA resetRefillState.metricFamilyByName "f").bind
      (fun a => (lookupA resetRefillState.fheap a).map (fun mf => mf.Metric.length))) = some 1 ∧
    resetRefillState.metrics.length = 2 := by decide

/-- Claim C3 (code_bug evaluation): after the three error-free calls
`Update(true, [f/a, f/b], [])`, `Update(false, [], [f/b])`,
`Update(false, [f/a], [])` from the fresh cache, the by-name index holds a
family entry for `f` whose members list is empty: the last insert found the
key's hash still registered in the by-hash index, so it skipped the append,
but the family record it had just created and stored was empty. -/
theorem update_leaves_empty_family :
    noEmptyFamilyB emptyFamState = false ∧
    (Update delDanglingState false [insG "a" 9] []).2 = [] ∧
    (lookupA emptyFamState.metricFamilyByName "f").isSome = true := by decide

/-- Claim C4: if an insert in the batch has a `ValueType` other than Counter,
Gauge or Untyped (the first such insert reached, every insert before it being
either soft-invalid or of supported kind), `Update` behaves exactly as if the
batch ended at that insert with no deletions — none of the subsequent inserts
or deletions of the call are applied — and it returns only the single
unsupported-kind error, discarding any previously accumulated soft errors. -/
theorem update_unsupported_kind_aborts {V : Type} [DecidableEq V] (c : CacheState V)
    (reset : Bool) (pre : List (Insert V)) (ins : Insert V) (post : List (Insert V))
    (dels : List Key)
    (hpre : ∀ j ∈ pre, j.toKey.isValid = none → isSupportedValueType j.ValueType = true)
    (h1 : ins.toKey.isValid = none)
    (h2 : isSupportedValueType ins.ValueType = false) :
    Update c reset (pre ++ ins :: post) dels = Update c reset (pre ++ [ins]) [] ∧
    (Update c reset (pre ++ ins :: post) dels).2 =
      ["unsupported value type " ++ toString ins.ValueType] := by
  obtain ⟨heq, hsnd⟩ := processInserts_firstHard reset c.metrics c.metricFamilyByName
    pre ins post hpre h1 h2 (initCtx c reset)
  have h3 : Update c reset (pre ++ ins :: post) dels = Update c reset (pre ++ [ins]) [] := by
    unfold Update
    rw [heq]
    rcases hp : processInserts reset c.metrics c.metricFamilyByName (initCtx c reset)
      (pre ++ [ins]) with ⟨ctx, o⟩
    rw [hp] at hsnd
    cases o with
    | none => exact absurd hsnd (by simp)
    | some e => rfl
  refine ⟨h3, ?_⟩
  rw [h3]
  unfold Update
  rcases hp : processInserts reset c.metrics c.metricFamilyByName (initCtx c reset)
    (pre ++ [ins]) with ⟨ctx, o⟩
  rw [hp] at hsnd
  cases o with
  | none => exact absurd hsnd (by simp)
  | some e =>
    have he : e = "unsupported value type " ++ toString ins.ValueType := by
      simpa using hsnd
    subst he
    rfl

/-- Claim C4 witness: on the one-metric cache, a batch whose first two
inserts are a valid gauge insert and a soft-invalid (empty-name) insert, and
whose third insert has the unsupported kind 4, aborts there: the trailing
insert and the deletion are not applied and the returned error is exactly the
single unsupported-kind message, the accumulated soft error being dropped. -/
theorem update_unsupported_kind_aborts_witness :
    Update oneMetricCache false [insG "a" 5, emptyNameIns, badIns, insG "b" 6]
        [(insG "a" 1).toKey] =
      Update oneMetricCache false [insG "a" 5, emptyNameIns, badIns] [] ∧
    (Update oneMetricCache false [insG "a" 5, emptyNameIns, badIns, insG "b" 6]
        [(insG "a" 1).toKey]).2 = ["unsupported value type 4"] := by
  have h := update_unsupported_kind_aborts oneMetricCache false [insG "a" 5, emptyNameIns]
    badIns [insG "b" 6] [(insG "a" 1).toKey]
    (by intro j hj; fin_cases hj <;> decide) (by decide) (by decide)
  exact ⟨h.1, h.2.trans (by decide)⟩

/- Two keys carrying the same label set in different supplied orders. -/
def keyAB : Key := { FQName := "f", LabelNames := ["a", "b"], LabelValues := ["1", "2"] }
def keyBA : Key := { FQName := "f", LabelNames := ["b", "a"], LabelValues := ["2", "1"] }

/-- Claim C5: `hash` is a pure function of the key's name and label
name/value sequences in the order supplied — equal field values give equal
hashes — while for the concrete keys `keyAB`/`keyBA`, which carry the same
label set in different supplied orders (their sorted stored label
representations coincide), the hashes differ: the sorted stored
representation never influences the hash. -/
theorem hash_depends_on_supplied_order :
    (∀ k1 k2 : Key, k1.FQName = k2.FQName → k1.LabelNames = k2.LabelNames →
      k1.LabelValues = k2.LabelValues → k1.hash = k2.hash) ∧
    keyAB.hash ≠ keyBA.hash ∧
    mkSortedLabels keyAB.LabelNames keyAB.LabelValues =
      mkSortedLabels keyBA.LabelNames keyBA.LabelValues := by
  refine ⟨?_, by decide, by decide⟩
  intro k1 k2 h1 h2 h3
  cases k1
  cases k2
  cases h1
  cases h2
  cases h3
  rfl

/-- Claim C5 witness: the purely functional part applied at `keyAB`, together
with the concrete order-sensitivity instance. -/
theorem hash_depends_on_supplied_order_witness :
    keyAB.hash = keyAB.hash ∧ keyAB.hash ≠ keyBA.hash :=
  ⟨hash_depends_on_supplied_order.1 keyAB keyAB rfl rfl rfl,
   hash_depends_on_supplied_order.2.1⟩

theorem storedValue_timestamp {V : Type} (m : MetricRec V) (ts : Option Int) :
    storedValue { m with TimestampMs := ts } = storedValue m := by
  cases m
  rfl

/-- Claim C6: a non-reset `Update` re-inserting a valid, supported-kind key
whose hash is already present in the by-hash index (with its family present
in the by-name index) updates the stored metric record in place: both index
maps are unchanged, every family record's members list is unchanged (so the
member count of the key's family stays what it was — in particular 1 for a
lone metric), no error is returned, and the record at the metric's address
keeps its labels and now stores the insert's value. -/
theorem update_reinsert_in_place {V : Type} [DecidableEq V] (c : CacheState V)
    (ins : Insert V) (mAddr mfAddr : Addr) (mrec : MetricRec V)
    (h1 : ins.toKey.isValid = none)
    (h2 : isSupportedValueType ins.ValueType = true)
    (h3 : lookupA c.metrics ins.toKey.hash = some mAddr)
    (h4 : lookupA c.metricFamilyByName ins.FQName = some mfAddr)
    (h5 : lookupA c.mheap mAddr = some mrec) :
    (Update c false [ins] []).2 = [] ∧
    (Update c false [ins] []).1.metrics = c.metrics ∧
    (Update c false [ins] []).1.metricFamilyByName = c.metricFamilyByName ∧
    (∀ a : Addr, (lookupA (Update c false [ins] []).1.fheap a).map FamilyRec.Metric =
      (lookupA c.fheap a).map FamilyRec.Metric) ∧
    (∃ mrec2 : MetricRec V, lookupA (Update c false [ins] []).1.mheap mAddr = some mrec2 ∧
      mrec2.Label = mrec.Label ∧ storedValue mrec2 = some ins.Value) := by
  have hstep : Update c false [ins] [] =
      ({ mheap := modifyA c.mheap mAddr (fun m =>
            { setValueArm ins.ValueType ins.Value m with
                TimestampMs := ins.Timestamp.map GoTime.unixMilli }),
         fheap := modifyA c.fheap mfAddr
           (fun mf => { mf with Typ := ins.ValueType, Help := ins.Help }),
         metrics := c.metrics,
         metricFamilyByName := c.metricFamilyByName,
         nextAddr := c.nextAddr }, []) := by
    simp [Update, processInserts, processDeletions, insertStep, insertStepValid, famPhase,
      metricPhase, finishInsert, initCtx, h1, h2, h3, h4,
      lookupA_setA_self _ _ _ h3, lookupA_setA_self _ _ _ h4]
  rw [hstep]
  refine ⟨rfl, rfl, rfl, ?_, ?_⟩
  · intro a
    rw [lookupA_modifyA]
    by_cases ha : a = mfAddr
    · simp only [ha, if_pos rfl]
      cases lookupA c.fheap mfAddr <;> rfl
    · simp [ha]
  · refine ⟨{ setValueArm ins.ValueType ins.Value mrec with
        TimestampMs := ins.Timestamp.map GoTime.unixMilli }, ?_, ?_, ?_⟩
    · rw [lookupA_modifyA, if_pos rfl, h5]
      rfl
    · simp [setValueArm_Label]
    · rw [storedValue_timestamp, storedValue_setValueArm]

/-- Claim C6 witness: re-inserting the lone gauge metric of the one-metric
cache with a new value leaves both index maps and the family's member list
unchanged, returns no error, and overwrites the stored value in place. -/
theorem update_reinsert_in_place_witness :
    (Update oneMetricCache false [insG "a" 5] []).2 = [] ∧
    (Update oneMetricCache false [insG "a" 5] []).1.metrics = oneMetricCache.metrics ∧
    (Update oneMetricCache false [insG "a" 5] []).1.metricFamilyByName =
      oneMetricCache.metricFamilyByName ∧
    (lookupA (Update oneMetricCache false [insG "a" 5] []).1.fheap 0).map FamilyRec.Metric =
      (lookupA oneMetricCache.fheap 0).map FamilyRec.Metric := by
  have h := update_reinsert_in_place oneMetricCache (insG "a" 5) 1 0
    { Label := [{ Name := "l", Value := "a" }], Counter := none, Gauge := some 1,
      Untyped := none, TimestampMs := none }
    (by decide) (by decide) (by decide) (by decide) (by decide)
  exact ⟨h.1, h.2.1, h.2.2.1, h.2.2.2.1 0⟩

/-- Claim C7: an insert or deletion whose key fails validation (empty name or
label sequences of different lengths) is skipped without modifying any state
component — only the error list grows by its message, and no hard error is
raised, so the loop continues — and a full non-reset `Update` whose single
insert and single deletion are both invalid returns the unchanged cache with
the two soft errors aggregated in order, while the same call with no items
returns the empty (nil) aggregate. -/
theorem invalid_key_skipped_and_aggregated {V : Type} [DecidableEq V]
    (reset : Bool) (oM : List (List Nat × Addr)) (oF : List (String × Addr))
    (ctx ctx2 : UpdCtx V) (ins : Insert V) (k : Key) (c : CacheState V) (e1 e2 : String)
    (h1 : ins.toKey.isValid = some e1) (h2 : k.isValid = some e2) :
    insertStep reset oM oF ctx ins = ({ ctx with errs := ctx.errs ++ [e1] }, none) ∧
    delStep ctx2 k = { ctx2 with errs := ctx2.errs ++ [e2] } ∧
    Update c false [ins] [k] = (c, [e1, e2]) ∧
    Update c false [] [] = (c, []) := by
  refine ⟨insertStep_invalid reset oM oF ctx ins e1 h1, ?_, ?_, ?_⟩
  · simp [delStep, h2]
  · obtain ⟨m1, f1, me1, mf1, n1⟩ := c
    simp [Update, processInserts, processDeletions, insertStep, delStep, initCtx, h1, h2]
  · obtain ⟨m1, f1, me1, mf1, n1⟩ := c
    simp [Update, processInserts, processDeletions, initCtx]

/-- Claim C7 witness: concrete instance with an empty-name insert and a
length-mismatched deletion key on the one-metric cache. -/
theorem invalid_key_skipped_and_aggregated_witness :
    insertStep false oneMetricCache.metrics oneMetricCache.metricFamilyByName
        (initCtx oneMetricCache false) emptyNameIns =
      ({ initCtx oneMetricCache false with errs := ["FQName cannot be empty"] }, none) ∧
    delStep (initCtx oneMetricCache false) mismatchedKey =
      { initCtx oneMetricCache false with
          errs := ["new metric: label name has different length than values"] } ∧
    Update oneMetricCache false [emptyNameIns] [mismatchedKey] =
      (oneMetricCache,
        ["FQName cannot be empty",
         "new metric: label name has different length than values"]) ∧
    Update oneMetricCache false [] [] = (oneMetricCache, []) := by
  have h := invalid_key_skipped_and_aggregated false oneMetricCache.metrics
    oneMetricCache.metricFamilyByName (initCtx oneMetricCache false)
    (initCtx oneMetricCache false) emptyNameIns mismatchedKey oneMetricCache
    "FQName cannot be empty" "new metric: label name has different length than values"
    (by decide) (by decide)
  exact h

/-- Claim C8: deleting a valid key whose hash is absent from the working hash
index is a no-op: the `Update` call consisting of just that deletion returns
the cache unchanged with a nil (empty) error. -/
theorem delete_absent_key_noop {V : Type} [DecidableEq V] (c : CacheState V) (k : Key)
    (h1 : k.isValid = none) (h2 : lookupA c.metrics k.hash = none) :
    Update c false [] [k] = (c, []) := by
  obtain ⟨m1, f1, me1, mf1, n1⟩ := c
  simp only [CacheState.mk.injEq] at h2
  simp [Update, processInserts, processDeletions, delStep, initCtx, h1, h2]

/-- Claim C8 witness: deleting a never-inserted key from the one-metric cache
returns the unchanged cache and a nil error. -/
theorem delete_absent_key_noop_witness :
    Update oneMetricCache false [] [(insG "c" 0).toKey] = (oneMetricCache, []) :=
  delete_absent_key_noop oneMetricCache (insG "c" 0).toKey (by decide) (by decide)

/-- Claim C9: `Update(reset := true, inserts := [], deletions := [])` empties
both indexes of any cache and returns a nil error; the subsequent `Gather`
view is empty, containing no families and hence no metrics. -/
theorem update_reset_empty_batch_empties_cache {V : Type} [DecidableEq V]
    (c : CacheState V) :
    (Update c true [] []).1.metrics = [] ∧
    (Update c true [] []).1.metricFamilyByName = [] ∧
    (Update c true [] []).2 = [] ∧
    Gather (Update c true [] []).1 = [] := by
  simp [Update, processInserts, processDeletions, initCtx, Gather, NormalizeMetricFamilies]

/-- Claim C10: when a reset `Update` aborts with the hard unsupported-kind
error, the final index swap never runs: the live by-hash and by-name maps
hold exactly the entries they held before the call (even though reused
records in the heaps may have been mutated in place), and the call returns
that single hard error. -/
theorem update_reset_abort_keeps_live_maps {V : Type} [DecidableEq V] (c : CacheState V)
    (inserts : List (Insert V)) (dels : List Key) (e : String)
    (h : (processInserts true c.metrics c.metricFamilyByName (initCtx c true) inserts).2 =
      some e) :
    (Update c true inserts dels).1.metrics = c.metrics ∧
    (Update c true inserts dels).1.metricFamilyByName = c.metricFamilyByName ∧
    (Update c true inserts dels).2 = [e] := by
  unfold Update
  rcases hp : processInserts true c.metrics c.metricFamilyByName (initCtx c true) inserts
    with ⟨ctx, o⟩
  rw [hp] at h
  cases o with
  | none => exact absurd h (by simp)
  | some e2 =>
    have he : e2 = e := by simpa using h
    subst he
    exact ⟨rfl, rfl, rfl⟩

/-- Claim C10 witness: a reset batch on the one-metric cache whose second
insert has the unsupported kind 4 aborts and leaves the live maps with
exactly their pre-call entries. -/
theorem update_reset_abort_keeps_live_maps_witness :
    (Update oneMetricCache true [insG "a" 3, badIns] []).1.metrics =
      oneMetricCache.metrics ∧
    (Update oneMetricCache true [insG "a" 3, badIns] []).1.metricFamilyByName =
      oneMetricCache.metricFamilyByName ∧
    (Update oneMetricCache true [insG "a" 3, badIns] []).2 =
      ["unsupported value type 4"] := by
  have h := update_reset_abort_keeps_live_maps oneMetricCache [insG "a" 3, badIns] []
    "unsupported value type 4" (by decide)
  exact h

end PromCache
